import Mathlib

/-!
Verification of the eloss repository's numerical core: the table
interpolation routine (`src/interpolation.rs`) and the fixed-step
energy-loss integrator (`src/lib.rs`).

Real (`f64`) arithmetic is embedded as exact rational arithmetic on `ℚ`.
A Rust panic (a failing `expect`/`unwrap`) is embedded as `none`;
a normal return of value `v` is `some v`.
-/

/-- Result type of the interpolator (`InterpolationResult` in
`src/interpolation.rs`): an interpolated value, an extrapolated value,
or no value (empty table). -/
inductive InterpolationResult where
  | InterpolatedValue : ℚ → InterpolationResult
  | ExtrapolatedValue : ℚ → InterpolationResult
  | NoValue : InterpolationResult
deriving DecidableEq

/-- Embedding of `InterpolationResult::to_value`: the numeric value of an
interpolated or extrapolated result, `none` for `NoValue`. -/
def InterpolationResult.to_value : InterpolationResult → Option ℚ
  | InterpolationResult.InterpolatedValue v => some v
  | InterpolationResult.ExtrapolatedValue v => some v
  | InterpolationResult.NoValue => none

/-- Embedding of `xs.binary_search_by(|v| v.partial_cmp(&x))` for the case
relevant to this program: on a sorted slice, Rust's binary search returns
`Ok(i)` precisely when `xs[i] == x` and otherwise `Err(i)` with `i` the
insertion position (the number of elements below `x`).  This reference
implementation computes that result by a scan; on strictly sorted input it
agrees with the binary search of the source. `Sum.inl` models `Ok`,
`Sum.inr` models `Err`. -/
def searchSorted (x : ℚ) : List ℚ → Sum Nat Nat
  | [] => Sum.inr 0
  | v :: rest =>
    if x < v then Sum.inr 0
    else if x = v then Sum.inl 0
    else
      match searchSorted x rest with
      | Sum.inl i => Sum.inl (i + 1)
      | Sum.inr i => Sum.inr (i + 1)

/-- Models the Rust expression `xs.get(i - 2)` where `i - 2` is evaluated on
`usize`: for `i < 2` the subtraction wraps around to a huge index, so the
lookup yields `None` (release-build semantics of the source). -/
def getSub2 (l : List ℚ) (i : Nat) : Option ℚ :=
  if 2 ≤ i then l[i - 2]? else none

/-- Embedding of `interpolate` from `src/interpolation.rs`.  `none` models a
panic (a failing `expect`); `some r` models a normal return of `r`.
The structure follows the source line by line: empty-table check, search,
then the exact-match, below-range (`i == 0`), above-range (`i == len`) and
interior branches, with every `get(..).expect(..)` embedded as a lookup
whose `None` case propagates a panic, and every `if let (Some, Some)`
embedded as a two-pattern match with a fallthrough. -/
def interpolate (x : ℚ) (xs ys : List ℚ) : Option InterpolationResult :=
  if xs.length = 0 then
    some InterpolationResult.NoValue
  else
    match searchSorted x xs with
    | Sum.inl i =>
      match ys[i]? with
      | some y => some (InterpolationResult.InterpolatedValue y)
      | none => none
    | Sum.inr i =>
      if i = 0 then
        match xs[i]?, ys[i]? with
        | some x0, some y0 =>
          match xs[i + 1]?, ys[i + 1]? with
          | some x1, some y1 =>
            some (InterpolationResult.ExtrapolatedValue
              ((y1 - y0) / (x1 - x0) * (x - x0) + y0))
          | _, _ => some (InterpolationResult.ExtrapolatedValue y0)
        | _, _ => none
      else if i = xs.length then
        match xs[i - 1]?, ys[i - 1]? with
        | some x1, some y1 =>
          match getSub2 xs i, getSub2 ys i with
          | some x0, some y0 =>
            some (InterpolationResult.ExtrapolatedValue
              ((y1 - y0) / (x1 - x0) * (x - x1) + y1))
          | _, _ => some (InterpolationResult.ExtrapolatedValue y1)
        | _, _ => none
      else
        match xs[i - 1]?, ys[i - 1]?, xs[i]?, ys[i]? with
        | some x0, some y0, some x1, some y1 =>
          some (InterpolationResult.InterpolatedValue
            ((y1 - y0) / (x1 - x0) * (x - x0) + y0))
        | _, _, _, _ => none

/-- The fixed step fraction `step_size = 1e-5` of `eloss` in `src/lib.rs`. -/
def stepSize : ℚ := 1e-5

/-- The stopping power the integrator sees at specific energy `u`:
`interpolate(u, xs, ys).to_value()`, with `none` standing for a panic of
either the interpolator or the `unwrap`. -/
def sAt (xs ys : List ℚ) (u : ℚ) : Option ℚ :=
  (interpolate u xs ys).bind InterpolationResult.to_value

/-- Embedding of the `while` loop of `eloss` (`src/lib.rs`, lines 74-79),
with an explicit fuel parameter to express the recursion.  The returned
pair is the final specific energy together with the number of loop
iterations executed.  In exact arithmetic the loop runs at most 100000
iterations (the remaining thickness `thick - k * (thick * 1e-5)` reaches
exactly zero at `k = 100000`), so the fuel `100001` used by `eloss` below
is never exhausted; this is proved in the termination theorem. -/
def elossGo (xs ys : List ℚ) (mass dThick : ℚ) : Nat → ℚ → ℚ → Option (ℚ × Nat)
  | 0, _, _ => none
  | fuel + 1, u, rem =>
    if 0 < rem ∧ 0 < u then
      match sAt xs ys u with
      | none => none
      | some s =>
        match elossGo xs ys mass dThick fuel (u - s * dThick / mass) (rem - dThick) with
        | none => none
        | some p => some (p.1, p.2 + 1)
    else
      some (u, 0)

/-- Embedding of `eloss` from `src/lib.rs` after the table and mass lookups:
the stopping-power table `(xs, ys)` and the per-nucleon `mass` are passed
explicitly (they are selected from process-wide constant tables built from
data files outside the verified core).  Computes
`energy_u = e / mass`, `d_thick = thick * step_size`, runs the loop and
returns `e - energy_u * mass`. -/
def eloss (xs ys : List ℚ) (mass e thick : ℚ) : Option ℚ :=
  (elossGo xs ys mass (thick * stepSize) 100001 (e / mass) thick).map
    (fun p => e - p.1 * mass)

/-- Number of loop iterations `eloss` executes, for the step-count claims. -/
def elossSteps (xs ys : List ℚ) (mass e thick : ℚ) : Option Nat :=
  (elossGo xs ys mass (thick * stepSize) 100001 (e / mass) thick).map Prod.snd

/-- Specification-side description of the integration recurrence, following
the spec's words: starting from specific energy `u`, while the energy is
positive each step subtracts `f u * d / m` where `f` is the stopping-power
curve, `d` the fixed step thickness and `m` the per-nucleon mass; once the
energy is exhausted the state freezes (the loop stops advancing). -/
def eulerIter (f : ℚ → ℚ) (d m : ℚ) : Nat → ℚ → ℚ
  | 0, u => u
  | k + 1, u => if 0 < u then eulerIter f d m k (u - f u * d / m) else u

/-- Specification-side count of the loop iterations actually executed among
the first `k` steps of `eulerIter`: stepping stops once the energy is no
longer positive. -/
def activeCount (f : ℚ → ℚ) (d m : ℚ) : Nat → ℚ → Nat
  | 0, _ => 0
  | k + 1, u => if 0 < u then activeCount f d m k (u - f u * d / m) + 1 else 0

/-! ### Helper lemmas about the search -/

lemma searchSorted_inl_lt {x : ℚ} :
    ∀ {xs : List ℚ} {i : Nat}, searchSorted x xs = Sum.inl i → i < xs.length := by
  intro xs
  induction xs with
  | nil => intro i h; simp [searchSorted] at h
  | cons v rest ih =>
    intro i h
    simp only [searchSorted] at h
    split_ifs at h with h1 h2
    · simp only [Sum.inl.injEq] at h
      simp only [List.length_cons]
      omega
    · rcases hrec : searchSorted x rest with j | j
      · rw [hrec] at h
        simp only [Sum.inl.injEq] at h
        have hj := ih hrec
        simp only [List.length_cons]
        omega
      · rw [hrec] at h
        simp at h

lemma searchSorted_inr_le {x : ℚ} :
    ∀ {xs : List ℚ} {i : Nat}, searchSorted x xs = Sum.inr i → i ≤ xs.length := by
  intro xs
  induction xs with
  | nil => intro i h; simp [searchSorted] at h; omega
  | cons v rest ih =>
    intro i h
    simp only [searchSorted] at h
    split_ifs at h with h1 h2
    · simp only [Sum.inr.injEq] at h
      simp only [List.length_cons]
      omega
    · rcases hrec : searchSorted x rest with j | j
      · rw [hrec] at h
        simp at h
      · rw [hrec] at h
        simp only [Sum.inr.injEq] at h
        have hj := ih hrec
        simp only [List.length_cons]
        omega

lemma searchSorted_found {x : ℚ} :
    ∀ {xs : List ℚ} {i : Nat}, xs.Pairwise (· < ·) → xs[i]? = some x →
      searchSorted x xs = Sum.inl i := by
  intro xs
  induction xs with
  | nil => intro i _ h; simp at h
  | cons v rest ih =>
    intro i hs hx
    cases i with
    | zero =>
      simp only [List.getElem?_cons_zero, Option.some_inj] at hx
      subst hx
      simp [searchSorted]
    | succ j =>
      simp only [List.getElem?_cons_succ] at hx
      have hmem : x ∈ rest := List.getElem?_mem hx
      have hvx : v < x := ((List.pairwise_cons.mp hs).1 x hmem)
      have h1 : ¬ x < v := not_lt.mpr hvx.le
      have h2 : x ≠ v := (ne_of_gt hvx)
      simp only [searchSorted, if_neg h1, if_neg h2]
      rw [ih (List.pairwise_cons.mp hs).2 hx]

lemma searchSorted_all_lt {x : ℚ} :
    ∀ {xs : List ℚ}, (∀ a ∈ xs, a < x) → searchSorted x xs = Sum.inr xs.length := by
  intro xs
  induction xs with
  | nil => intro _; simp [searchSorted]
  | cons v rest ih =>
    intro h
    have hvx : v < x := h v (by simp)
    simp only [searchSorted, if_neg (not_lt.mpr hvx.le), if_neg (ne_of_gt hvx)]
    rw [ih (fun a ha => h a (by simp [ha]))]
    simp

lemma searchSorted_between {x x0 x1 : ℚ} :
    ∀ {xs : List ℚ} {j : Nat}, xs.Pairwise (· < ·) →
      xs[j]? = some x0 → xs[j + 1]? = some x1 → x0 < x → x < x1 →
      searchSorted x xs = Sum.inr (j + 1) := by
  intro xs
  induction xs with
  | nil => intro j _ h; simp at h
  | cons v rest ih =>
    intro j hs hx0 hx1 hx0x hxx1
    cases j with
    | zero =>
      simp only [List.getElem?_cons_zero, Option.some_inj] at hx0
      subst hx0
      simp only [List.getElem?_cons_succ] at hx1
      cases rest with
      | nil => simp at hx1
      | cons w rest2 =>
        simp only [List.getElem?_cons_zero, Option.some_inj] at hx1
        subst hx1
        simp only [searchSorted, if_neg (not_lt.mpr hx0x.le), if_neg (ne_of_gt hx0x),
          if_pos hxx1]
    | succ jj =>
      simp only [List.getElem?_cons_succ] at hx0 hx1
      have hmem : x0 ∈ rest := List.getElem?_mem hx0
      have hvx : v < x := lt_trans ((List.pairwise_cons.mp hs).1 x0 hmem) hx0x
      simp only [searchSorted, if_neg (not_lt.mpr hvx.le), if_neg (ne_of_gt hvx)]
      rw [ih (List.pairwise_cons.mp hs).2 hx0 hx1 hx0x hxx1]

/-! ### Helper lemmas about the integration loop -/

lemma elossGo_stop {xs ys : List ℚ} {m d u rem : ℚ} {fuel : Nat}
    (h : ¬(0 < rem ∧ 0 < u)) :
    elossGo xs ys m d (fuel + 1) u rem = some (u, 0) := by
  simp only [elossGo, if_neg h]

lemma elossGo_step {xs ys : List ℚ} {m d u rem s : ℚ} {fuel : Nat}
    (hguard : 0 < rem ∧ 0 < u) (hs : sAt xs ys u = some s) :
    elossGo xs ys m d (fuel + 1) u rem =
      (elossGo xs ys m d fuel (u - s * d / m) (rem - d)).map
        (fun p => (p.1, p.2 + 1)) := by
  simp only [elossGo, if_pos hguard, hs]
  cases elossGo xs ys m d fuel (u - s * d / m) (rem - d) <;> simp

lemma eulerIter_frozen {f : ℚ → ℚ} {d m u : ℚ} (h : ¬ 0 < u) :
    ∀ k : Nat, eulerIter f d m k u = u := by
  intro k
  cases k with
  | zero => rfl
  | succ n => simp only [eulerIter, if_neg h]

lemma eulerIter_step {f : ℚ → ℚ} {d m u : ℚ} (h : 0 < u) (k : Nat) :
    eulerIter f d m (k + 1) u = eulerIter f d m k (u - f u * d / m) := by
  simp only [eulerIter, if_pos h]

lemma activeCount_step {f : ℚ → ℚ} {d m u : ℚ} (h : 0 < u) (k : Nat) :
    activeCount f d m (k + 1) u = activeCount f d m k (u - f u * d / m) + 1 := by
  simp only [activeCount, if_pos h]

lemma elossGo_eq_eulerIter {xs ys : List ℚ} {m d : ℚ} {f : ℚ → ℚ}
    (hf : ∀ v, 0 < v → sAt xs ys v = some (f v)) (hd : 0 < d) :
    ∀ (j : Nat) (fuel : Nat) (u : ℚ), j < fuel →
      elossGo xs ys m d fuel u ((j : ℚ) * d) =
        some (eulerIter f d m j u, activeCount f d m j u) := by
  intro j
  induction j with
  | zero =>
    intro fuel u hj
    obtain ⟨ff, rfl⟩ : ∃ ff, fuel = ff + 1 := ⟨fuel - 1, by omega⟩
    rw [elossGo_stop (by simp)]
    simp [eulerIter, activeCount]
  | succ jj ih =>
    intro fuel u hj
    obtain ⟨ff, rfl⟩ : ∃ ff, fuel = ff + 1 := ⟨fuel - 1, by omega⟩
    by_cases hu : 0 < u
    · have hrem : (0 : ℚ) < ((jj : Nat) + 1 : ℚ) * d := by positivity
      have hcast : (((jj + 1 : Nat)) : ℚ) * d = ((jj : Nat) + 1 : ℚ) * d := by push_cast; ring
      rw [hcast]
      rw [elossGo_step ⟨hrem, hu⟩ (hf u hu)]
      have harith : ((jj : Nat) + 1 : ℚ) * d - d = ((jj : Nat) : ℚ) * d := by ring
      rw [harith, ih ff (u - f u * d / m) (by omega)]
      rw [eulerIter_step hu, activeCount_step hu]
      simp
    · rw [elossGo_stop (by tauto)]
      rw [eulerIter_frozen hu]
      have : activeCount f d m (jj + 1) u = 0 := by
        simp only [activeCount, if_neg hu]
      rw [this]

lemma eulerIter_le_self {f : ℚ → ℚ} {d m : ℚ}
    (hfpos : ∀ v, 0 < v → 0 ≤ f v) (hd : 0 ≤ d) (hm : 0 < m) :
    ∀ (k : Nat) (u : ℚ), eulerIter f d m k u ≤ u := by
  intro k
  induction k with
  | zero => intro u; simp [eulerIter]
  | succ n ih =>
    intro u
    by_cases hu : 0 < u
    · have hstep : 0 ≤ f u * d / m :=
        div_nonneg (mul_nonneg (hfpos u hu) hd) hm.le
      calc eulerIter f d m (n + 1) u
          = eulerIter f d m n (u - f u * d / m) := eulerIter_step hu n
        _ ≤ u - f u * d / m := ih _
        _ ≤ u := by linarith
    · rw [eulerIter_frozen hu]

lemma eulerIter_add {f : ℚ → ℚ} {d m : ℚ} :
    ∀ (i n : Nat) (u : ℚ),
      eulerIter f d m (i + n) u = eulerIter f d m n (eulerIter f d m i u) := by
  intro i
  induction i with
  | zero => intro n u; simp [eulerIter]
  | succ k ih =>
    intro n u
    by_cases hu : 0 < u
    · have : k + 1 + n = (k + n) + 1 := by omega
      rw [this, eulerIter_step hu, eulerIter_step hu, ih]
    · rw [eulerIter_frozen hu, eulerIter_frozen hu, eulerIter_frozen hu]

lemma eulerIter_anti {f : ℚ → ℚ} {d m : ℚ}
    (hfpos : ∀ v, 0 < v → 0 ≤ f v) (hd : 0 ≤ d) (hm : 0 < m)
    {i j : Nat} (hij : i ≤ j) (u : ℚ) :
    eulerIter f d m j u ≤ eulerIter f d m i u := by
  obtain ⟨n, rfl⟩ : ∃ n, j = i + n := ⟨j - i, by omega⟩
  rw [eulerIter_add]
  exact eulerIter_le_self hfpos hd hm n _

lemma eulerIter_pos_of_final {f : ℚ → ℚ} {d m u : ℚ} {n : Nat}
    (hfpos : ∀ v, 0 < v → 0 ≤ f v) (hd : 0 ≤ d) (hm : 0 < m)
    (h : 0 < eulerIter f d m n u) :
    ∀ i, i ≤ n → 0 < eulerIter f d m i u :=
  fun i hi => lt_of_lt_of_le h (eulerIter_anti hfpos hd hm hi u)

lemma eulerIter_mono {f : ℚ → ℚ} {d1 d2 m : ℚ}
    (hm : 0 < m) (hd1 : 0 < d1) (hd12 : d1 ≤ d2)
    (hanti : ∀ u v, 0 < u → u ≤ v → f v ≤ f u)
    (hfpos : ∀ v, 0 < v → 0 ≤ f v) :
    ∀ (k : Nat) (u1 u2 : ℚ), u2 ≤ u1 →
      (∀ i, i ≤ k → 0 < eulerIter f d2 m i u2) →
      eulerIter f d2 m k u2 ≤ eulerIter f d1 m k u1 := by
  intro k
  induction k with
  | zero => intro u1 u2 h _; simpa [eulerIter] using h
  | succ n ih =>
    intro u1 u2 h hall
    have hu2 : 0 < u2 := by simpa [eulerIter] using hall 0 (by omega)
    have hu1 : 0 < u1 := lt_of_lt_of_le hu2 h
    have hf21 : f u1 ≤ f u2 := hanti u2 u1 hu2 h
    have hfu1 : 0 ≤ f u1 := hfpos u1 hu1
    have hstep : u2 - f u2 * d2 / m ≤ u1 - f u1 * d1 / m := by
      have h1 : f u1 * d1 ≤ f u2 * d2 :=
        mul_le_mul hf21 hd12 hd1.le (le_trans hfu1 hf21)
      have h2 : f u1 * d1 / m ≤ f u2 * d2 / m := by
        apply div_le_div_of_nonneg_right h1 hm.le
      linarith
    rw [eulerIter_step hu2, eulerIter_step hu1]
    apply ih _ _ hstep
    intro i hi
    have hnext := hall (i + 1) (by omega)
    rwa [eulerIter_step hu2] at hnext

lemma activeCount_full {f : ℚ → ℚ} {d m : ℚ} :
    ∀ (j : Nat) (u : ℚ), (∀ i, i < j → 0 < eulerIter f d m i u) →
      activeCount f d m j u = j := by
  intro j
  induction j with
  | zero => intro u _; rfl
  | succ n ih =>
    intro u h
    have hu : 0 < u := by simpa [eulerIter] using h 0 (by omega)
    rw [activeCount_step hu, ih]
    intro i hi
    have hnext := h (i + 1) (by omega)
    rwa [eulerIter_step hu] at hnext

lemma eulerIter_const {c d m : ℚ} (hq : 0 ≤ c * d / m) :
    ∀ (k : Nat) (u : ℚ), 0 < u - (k : ℚ) * (c * d / m) →
      eulerIter (fun _ => c) d m k u = u - (k : ℚ) * (c * d / m) := by
  intro k
  induction k with
  | zero => intro u h; simp [eulerIter]
  | succ n ih =>
    intro u h
    push_cast at h
    have hu : 0 < u := by nlinarith [Nat.cast_nonneg (α := ℚ) n]
    rw [eulerIter_step hu, ih]
    · push_cast
      ring
    · have harg : u - c * d / m - (n : ℚ) * (c * d / m)
          = u - ((n : ℚ) + 1) * (c * d / m) := by ring
      rw [harg]
      linarith

lemma all_lt_of_last_lt {x x1 : ℚ} {xs : List ℚ} (hs : xs.Pairwise (· < ·))
    (hx1 : xs[xs.length - 1]? = some x1) (h : x1 < x) : ∀ a ∈ xs, a < x := by
  intro a ha
  obtain ⟨i, hi, rfl⟩ := List.mem_iff_getElem.mp ha
  obtain ⟨hlast, hget⟩ := List.getElem?_eq_some.mp hx1
  rcases eq_or_lt_of_le (Nat.le_pred_of_lt hi) with he | hlt
  · have : xs[i] = x1 := by
      rw [← hget]
      congr 1
    rw [this]
    exact h
  · have hpw := List.pairwise_iff_getElem.mp hs i (xs.length - 1) hi hlast hlt
    rw [hget] at hpw
    exact lt_trans hpw h

/-! ### Interpolator claims -/

/-- Claim C4: on a sorted table, querying exactly at a sample point `xs[i]`
returns `Interpolated(ys[i])`, the table value itself. -/
theorem interpolate_exact_hit (xs ys : List ℚ) (i : Nat) (x y : ℚ)
    (hs : xs.Pairwise (· < ·)) (hx : xs[i]? = some x) (hy : ys[i]? = some y) :
    interpolate x xs ys = some (InterpolationResult.InterpolatedValue y) := by
  have hfind := searchSorted_found hs hx
  have hi : i < xs.length := (List.getElem?_eq_some.mp hx).1
  have hlen0 : ¬ xs.length = 0 := by omega
  rw [interpolate, if_neg hlen0, hfind]
  simp only [hy]

/-- Claim C4 witness: the concrete table `[100, 200] / [3, 4]` queried at
`200` yields `Interpolated(4)`. -/
theorem interpolate_exact_hit_witness :
    interpolate 200 [100, 200] [3, 4] = some (InterpolationResult.InterpolatedValue 4) := by
  apply interpolate_exact_hit [100, 200] [3, 4] 1 200 4
  · norm_num [List.pairwise_cons]
  · rfl
  · rfl

/-- Claim C2: for a sorted table and a query strictly between two adjacent
sample points, `interpolate` returns the linear interpolation
`Interpolated(ys[i-1] + (ys[i]-ys[i-1])/(xs[i]-xs[i-1]) * (x - xs[i-1]))`;
in particular on `xs=[100,200], ys=[3,4]` the query `150` yields
`Interpolated(3.5)`. -/
theorem interpolate_interior :
    (∀ (xs ys : List ℚ) (i : Nat) (x x0 y0 x1 y1 : ℚ),
      xs.Pairwise (· < ·) →
      xs[i - 1]? = some x0 → ys[i - 1]? = some y0 →
      xs[i]? = some x1 → ys[i]? = some y1 →
      0 < i → x0 < x → x < x1 →
      interpolate x xs ys =
        some (InterpolationResult.InterpolatedValue
          (y0 + (y1 - y0) / (x1 - x0) * (x - x0)))) ∧
    interpolate 150 [100, 200] [3, 4] =
      some (InterpolationResult.InterpolatedValue (7/2)) := by
  constructor
  · intro xs ys i x x0 y0 x1 y1 hs hx0 hy0 hx1 hy1 hi hx0x hxx1
    obtain ⟨j, rfl⟩ : ∃ j, i = j + 1 := ⟨i - 1, by omega⟩
    simp only [Nat.add_sub_cancel] at hx0 hy0
    have hfind := searchSorted_between hs hx0 hx1 hx0x hxx1
    have hjlt : j + 1 < xs.length := (List.getElem?_eq_some.mp hx1).1
    have hlen0 : ¬ xs.length = 0 := by omega
    rw [interpolate, if_neg hlen0, hfind]
    simp only [Nat.add_sub_cancel, if_neg (Nat.succ_ne_zero j),
      if_neg (show ¬ j + 1 = xs.length by omega), hx0, hy0, hx1, hy1]
    have : (y1 - y0) / (x1 - x0) * (x - x0) + y0
        = y0 + (y1 - y0) / (x1 - x0) * (x - x0) := by ring
    rw [this]
  · norm_num [interpolate, searchSorted, getSub2]

/-- Claim C2 witness: the general interior formula applied at the concrete
table `[100, 200] / [3, 4]` and query `120`. -/
theorem interpolate_interior_witness :
    interpolate 120 [100, 200] [3, 4] =
      some (InterpolationResult.InterpolatedValue (16/5)) := by
  have h := interpolate_interior.1 [100, 200] [3, 4] 1 120 100 3 200 4
    (by norm_num [List.pairwise_cons]) rfl rfl rfl rfl (by omega)
    (by norm_num) (by norm_num)
  rw [h]
  norm_num

/-- Claim C3: querying a sorted table of at least two points below its first
sample or above its last sample returns `Extrapolated` with the linear
projection of the nearest edge segment, and for a one-point table any query
away from the sample returns `Extrapolated(ys[0])` (flat extrapolation). -/
theorem interpolate_edge_extrapolation :
    (∀ (xs ys : List ℚ) (x x0 y0 x1 y1 : ℚ),
      xs[0]? = some x0 → ys[0]? = some y0 →
      xs[1]? = some x1 → ys[1]? = some y1 →
      x < x0 →
      interpolate x xs ys =
        some (InterpolationResult.ExtrapolatedValue
          (y0 + (y1 - y0) / (x1 - x0) * (x - x0)))) ∧
    (∀ (xs ys : List ℚ) (x x0 y0 x1 y1 : ℚ),
      xs.Pairwise (· < ·) → 2 ≤ xs.length →
      xs[xs.length - 2]? = some x0 → ys[xs.length - 2]? = some y0 →
      xs[xs.length - 1]? = some x1 → ys[xs.length - 1]? = some y1 →
      x1 < x →
      interpolate x xs ys =
        some (InterpolationResult.ExtrapolatedValue
          (y1 + (y1 - y0) / (x1 - x0) * (x - x1)))) ∧
    (∀ (a b q : ℚ), q ≠ a →
      interpolate q [a] [b] = some (InterpolationResult.ExtrapolatedValue b)) := by
  refine ⟨?_, ?_, ?_⟩
  · intro xs ys x x0 y0 x1 y1 hx0 hy0 hx1 hy1 hxx0
    obtain ⟨v, rest, rfl⟩ : ∃ v rest, xs = v :: rest := by
      cases xs with
      | nil => simp at hx0
      | cons v rest => exact ⟨v, rest, rfl⟩
    have hv : v = x0 := by simpa using hx0
    subst x0
    have hfind : searchSorted x (v :: rest) = Sum.inr 0 := by
      simp [searchSorted, if_pos hxx0]
    rw [interpolate, if_neg (by simp), hfind]
    simp only [if_pos rfl, List.getElem?_cons_zero, hy0, hx1, hy1]
    have harith : (y1 - y0) / (x1 - v) * (x - v) + y0
        = y0 + (y1 - y0) / (x1 - v) * (x - v) := by ring
    simp [harith]
  · intro xs ys x x0 y0 x1 y1 hs hlen2 hx0 hy0 hx1 hy1 hx1x
    have hall : ∀ a ∈ xs, a < x := all_lt_of_last_lt hs hx1 hx1x
    have hfind := searchSorted_all_lt hall
    have hlen0 : ¬ xs.length = 0 := by omega
    rw [interpolate, if_neg hlen0, hfind]
    simp only [if_neg (show ¬ xs.length = 0 from hlen0), if_pos rfl, hx1, hy1]
    have hg1 : getSub2 xs xs.length = some x0 := by
      rw [getSub2, if_pos hlen2]
      exact hx0
    have hg2 : getSub2 ys xs.length = some y0 := by
      rw [getSub2, if_pos hlen2]
      exact hy0
    rw [hg1, hg2]
    have harith : (y1 - y0) / (x1 - x0) * (x - x1) + y1
        = y1 + (y1 - y0) / (x1 - x0) * (x - x1) := by ring
    simp [harith]
  · intro a b q hqa
    rcases lt_or_gt_of_ne hqa with h | h
    · have hfind : searchSorted q [a] = Sum.inr 0 := by
        simp [searchSorted, if_pos h]
      rw [interpolate, if_neg (by simp), hfind]
      simp
    · have hfind : searchSorted q [a] = Sum.inr 1 := by
        simp [searchSorted, if_neg (not_lt.mpr h.le), if_neg hqa]
      rw [interpolate, if_neg (by simp), hfind]
      norm_num [getSub2]

/-- Claim C3 witness: the three cases at concrete inputs — below-range and
above-range queries on `[100, 200] / [3, 4]`, and a one-point table. -/
theorem interpolate_edge_extrapolation_witness :
    interpolate 10 [100, 200] [3, 4] =
        some (InterpolationResult.ExtrapolatedValue (21/10)) ∧
    interpolate 210 [100, 200] [3, 4] =
        some (InterpolationResult.ExtrapolatedValue (41/10)) ∧
    interpolate 50 [100] [3] = some (InterpolationResult.ExtrapolatedValue 3) := by
  refine ⟨?_, ?_, ?_⟩
  · have h := interpolate_edge_extrapolation.1 [100, 200] [3, 4] 10 100 3 200 4
      rfl rfl rfl rfl (by norm_num)
    rw [h]
    norm_num
  · have h := interpolate_edge_extrapolation.2.1 [100, 200] [3, 4] 210 100 3 200 4
      (by norm_num [List.pairwise_cons]) (by norm_num) rfl rfl rfl rfl (by norm_num)
    rw [h]
    norm_num
  · exact interpolate_edge_extrapolation.2.2 100 3 50 (by norm_num)

/-- Claim C8 (amended): on a well-formed table — `xs` sorted, `xs` and `ys`
of equal length — `interpolate` never panics: for every query it returns a
classified result (`Interpolated`, `Extrapolated`, or `NoValue` for an
empty table). -/
theorem interpolate_total (xs ys : List ℚ) (x : ℚ)
    (hs : xs.Pairwise (· < ·)) (hlen : xs.length = ys.length) :
    ∃ r, interpolate x xs ys = some r := by
  rw [← Option.isSome_iff_exists]
  by_cases hemp : xs.length = 0
  · rw [interpolate, if_pos hemp]
    rfl
  · rcases hfind : searchSorted x xs with i | i
    · have hi : i < ys.length := hlen ▸ searchSorted_inl_lt hfind
      have hy : ys[i]? = some ys[i] := List.getElem?_eq_getElem hi
      rw [interpolate, if_neg hemp, hfind]
      simp [hy]
    · have hile : i ≤ xs.length := searchSorted_inr_le hfind
      rw [interpolate, if_neg hemp, hfind]
      by_cases hi0 : i = 0
      · subst hi0
        have h0x : 0 < xs.length := by omega
        have h0y : 0 < ys.length := by omega
        have hx0 : xs[0]? = some xs[0] := List.getElem?_eq_getElem h0x
        have hy0 : ys[0]? = some ys[0] := List.getElem?_eq_getElem h0y
        rcases hx1 : xs[1]? with _ | x1 <;> rcases hy1 : ys[1]? with _ | y1 <;>
          simp [hx0, hy0, hx1, hy1]
      · by_cases hilen : i = xs.length
        · subst hilen
          have h1x : xs.length - 1 < xs.length := by omega
          have h1y : xs.length - 1 < ys.length := by omega
          have hx1 : xs[xs.length - 1]? = some xs[xs.length - 1] :=
            List.getElem?_eq_getElem h1x
          have hy1 : ys[xs.length - 1]? = some ys[xs.length - 1] :=
            List.getElem?_eq_getElem h1y
          rcases hgx : getSub2 xs xs.length with _ | x0 <;>
            rcases hgy : getSub2 ys xs.length with _ | y0 <;>
            simp [hx1, hy1, hgx, hgy, hemp]
        · have hi1x : i - 1 < xs.length := by omega
          have hi1y : i - 1 < ys.length := by omega
          have hix : i < xs.length := by omega
          have hiy : i < ys.length := by omega
          have hx0 : xs[i - 1]? = some xs[i - 1] := List.getElem?_eq_getElem hi1x
          have hy0 : ys[i - 1]? = some ys[i - 1] := List.getElem?_eq_getElem hi1y
          have hx1 : xs[i]? = some xs[i] := List.getElem?_eq_getElem hix
          have hy1 : ys[i]? = some ys[i] := List.getElem?_eq_getElem hiy
          simp [hx0, hy0, hx1, hy1, hi0, hilen]

/-- Claim C8 witness: the totality theorem applied to the concrete
well-formed table `[100, 200] / [3, 4]` at query `150`. -/
theorem interpolate_total_witness :
    (interpolate 150 [100, 200] [3, 4]).isSome = true :=
  Option.isSome_iff_exists.mpr
    (interpolate_total [100, 200] [3, 4] 150 (by norm_num [List.pairwise_cons]) rfl)

/-- Claim C8 counterexample: on a malformed table whose `ys` is shorter than
`xs`, `interpolate` panics (a failing `expect`, embedded as `none`) instead
of returning a classified result: here `xs = [100, 200]`, `ys = []`,
query `100`. -/
theorem interpolate_mismatch_panics : interpolate 100 [100, 200] [] = none := by
  norm_num [interpolate, searchSorted]

/-- Claim C10 (amended): `interpolate` does not uniformly fail fast on a
length mismatch.  It panics only when a required `ys` entry is missing —
for instance an exact hit in `xs` with `ys` empty — while in other
mismatched cases (such as `xs = [100, 200]`, `ys = [3]`, query `100`) it
silently returns a value computed from the partial table. -/
theorem interpolate_mismatch_behavior :
    (∀ (xs : List ℚ) (h : xs ≠ []), interpolate (xs.head h) xs [] = none) ∧
    interpolate 100 [100, 200] [3] = some (InterpolationResult.InterpolatedValue 3) := by
  constructor
  · intro xs h
    obtain ⟨v, rest, rfl⟩ : ∃ v rest, xs = v :: rest := by
      cases xs with
      | nil => simp at h
      | cons v rest => exact ⟨v, rest, rfl⟩
    have hfind : searchSorted (List.head (v :: rest) h) (v :: rest) = Sum.inl 0 := by
      simp [searchSorted]
    rw [interpolate, if_neg (by simp), hfind]
    simp
  · norm_num [interpolate, searchSorted]

/-- Claim C10 witness: the amended mismatch behavior at a concrete
one-point `xs` with empty `ys` (the panicking side of the disjunction). -/
theorem interpolate_mismatch_behavior_witness :
    interpolate 100 [100] [] = none := by
  have h := interpolate_mismatch_behavior.1 [100] (by simp)
  simpa using h

/-- Claim C10 counterexample: with mismatched lengths `xs = [100, 200]`,
`ys = [3]` and query `100`, `interpolate` does not raise an error: it
silently returns `Interpolated(3)`, a value computed from the partial
table. -/
theorem interpolate_no_fail_fast :
    interpolate 100 [100, 200] [3] = some (InterpolationResult.InterpolatedValue 3)
      ∧ ¬ ([100, 200] : List ℚ).length = ([3] : List ℚ).length := by
  constructor
  · norm_num [interpolate, searchSorted]
  · simp

/-! ### Integrator claims -/

lemma sAt_single (a b v : ℚ) : sAt [a] [b] v = some b := by
  rcases lt_trichotomy v a with h | h | h
  · have hfind : searchSorted v [a] = Sum.inr 0 := by
      simp [searchSorted, if_pos h]
    rw [sAt, interpolate, if_neg (by simp), hfind]
    simp [InterpolationResult.to_value]
  · subst h
    have hfind : searchSorted v [v] = Sum.inl 0 := by
      simp [searchSorted]
    rw [sAt, interpolate, if_neg (by simp), hfind]
    simp [InterpolationResult.to_value]
  · have hfind : searchSorted v [a] = Sum.inr 1 := by
      simp [searchSorted, if_neg (not_lt.mpr h.le), if_neg (ne_of_gt h)]
    rw [sAt, interpolate, if_neg (by simp), hfind]
    norm_num [getSub2, InterpolationResult.to_value]

lemma sAt_flat01 (v : ℚ) : sAt [0, 1] [1, 1] v = some 1 := by
  rcases lt_trichotomy v 0 with h0 | h0 | h0
  · have hfind : searchSorted v [0, 1] = Sum.inr 0 := by
      simp [searchSorted, if_pos h0]
    rw [sAt, interpolate, if_neg (by simp), hfind]
    norm_num [InterpolationResult.to_value]
  · subst h0
    norm_num [sAt, interpolate, searchSorted, InterpolationResult.to_value]
  · rcases lt_trichotomy v 1 with h1 | h1 | h1
    · have hfind : searchSorted v [0, 1] = Sum.inr 1 := by
        simp [searchSorted, if_neg (not_lt.mpr h0.le), if_neg h0.ne', if_pos h1]
      rw [sAt, interpolate, if_neg (by simp), hfind]
      norm_num [InterpolationResult.to_value]
    · subst h1
      norm_num [sAt, interpolate, searchSorted, InterpolationResult.to_value]
    · have hfind : searchSorted v [0, 1] = Sum.inr 2 := by
        simp [searchSorted, if_neg (not_lt.mpr h0.le), if_neg h0.ne',
          if_neg (not_lt.mpr h1.le), if_neg h1.ne']
      rw [sAt, interpolate, if_neg (by simp), hfind]
      norm_num [getSub2, InterpolationResult.to_value]

lemma stepSize_eq : stepSize = 1 / 100000 := by
  norm_num [stepSize]

lemma eloss_pos_bridge {xs ys : List ℚ} {m e t : ℚ} {f : ℚ → ℚ}
    (hf : ∀ v, 0 < v → sAt xs ys v = some (f v)) (ht : 0 < t) :
    elossGo xs ys m (t * stepSize) 100001 (e / m) t =
      some (eulerIter f (t * stepSize) m 100000 (e / m),
            activeCount f (t * stepSize) m 100000 (e / m)) := by
  have hss : (0 : ℚ) < stepSize := by rw [stepSize_eq]; norm_num
  have hd : 0 < t * stepSize := by positivity
  have hrw : t = ((100000 : Nat) : ℚ) * (t * stepSize) := by
    rw [stepSize_eq]
    push_cast
    ring
  calc elossGo xs ys m (t * stepSize) 100001 (e / m) t
      = elossGo xs ys m (t * stepSize) 100001 (e / m)
          (((100000 : Nat) : ℚ) * (t * stepSize)) := by rw [← hrw]
    _ = _ := elossGo_eq_eulerIter hf hd 100000 100001 (e / m) (by omega)

/-- Claim C7: for any table and any energy, `eloss` at thickness `0`
returns `0`: the loop guard fails immediately and
`e - (e / mass) * mass = 0` for the (nonzero) projectile mass. -/
theorem eloss_zero_thickness (xs ys : List ℚ) (m e : ℚ) (hm : m ≠ 0) :
    eloss xs ys m e 0 = some 0 := by
  rw [eloss, show (100001 : Nat) = 100000 + 1 from rfl, elossGo_stop (by simp)]
  simp [div_mul_cancel₀ e hm]

/-- Claim C7 witness: concrete zero-thickness call. -/
theorem eloss_zero_thickness_witness : eloss [1] [2] 1 7 0 = some 0 :=
  eloss_zero_thickness [1] [2] 1 7 (by norm_num)

/-- Claim C9 (amended): `eloss` performs no input validation: for a negative
thickness, or a non-positive energy, it silently returns the degenerate
answer `0` instead of rejecting with an error. -/
theorem eloss_no_validation (xs ys : List ℚ) (m e t : ℚ)
    (hm : 0 < m) (h : t < 0 ∨ e ≤ 0) :
    eloss xs ys m e t = some 0 := by
  have hguard : ¬ (0 < t ∧ 0 < e / m) := by
    rcases h with h | h
    · intro hcon
      linarith [hcon.1]
    · intro hcon
      have hdiv : e / m ≤ 0 := div_nonpos_of_nonpos_of_nonneg h hm.le
      linarith [hcon.2]
  rw [eloss, show (100001 : Nat) = 100000 + 1 from rfl, elossGo_stop hguard]
  simp [div_mul_cancel₀ e hm.ne']

/-- Claim C9 witness: non-positive energy with positive thickness silently
yields `0`. -/
theorem eloss_no_validation_witness : eloss [0, 1] [1, 1] 1 (-3) 5 = some 0 :=
  eloss_no_validation [0, 1] [1, 1] 1 (-3) 5 (by norm_num) (Or.inr (by norm_num))

/-- Claim C9 counterexample: called with negative `areal_thickness = -1`,
`eloss` does not reject with an error: it silently returns `some 0`. -/
theorem eloss_negative_thickness_no_error :
    eloss [0, 1] [1, 1] 1 5 (-1) = some 0 := by
  rw [eloss, show (100001 : Nat) = 100000 + 1 from rfl, elossGo_stop (by norm_num)]
  norm_num

/-- Claim C1: `eloss` follows the fixed-step Euler scheme exactly: with
`u = e / mass` and the step `d = thick * step_size` computed once before the
loop, it iterates `u -= f u * d / mass` while thickness remains and `u > 0`
(100000 iterations for positive thickness, none otherwise — the remaining
thickness is `thick - k * d`, exactly `0` after 100000 steps), and returns
`e - u * mass`.  `eulerIter` is the specification-side recurrence. -/
theorem eloss_euler_scheme (xs ys : List ℚ) (m e t : ℚ) (f : ℚ → ℚ)
    (hf : ∀ v, 0 < v → sAt xs ys v = some (f v)) :
    eloss xs ys m e t =
      some (e - eulerIter f (t * stepSize) m
        (if 0 < t then 100000 else 0) (e / m) * m) := by
  by_cases ht : 0 < t
  · rw [eloss, eloss_pos_bridge hf ht, if_pos ht]
    rfl
  · rw [eloss, show (100001 : Nat) = 100000 + 1 from rfl,
      elossGo_stop (fun hcon => ht hcon.1), if_neg ht]
    rfl

/-- Claim C1 witness: on a constant stopping power 2 over a one-point table,
with mass 1, energy 10 and thickness 1, the scheme loses exactly
`2 * 1 = 2` (no range-out, 100000 full steps). -/
theorem eloss_euler_scheme_witness : eloss [1] [2] 1 10 1 = some 2 := by
  rw [eloss_euler_scheme [1] [2] 1 10 1 (fun _ => 2) (fun v _ => sAt_single 1 2 v)]
  rw [if_pos (by norm_num : (0 : ℚ) < 1)]
  rw [eulerIter_const (by rw [stepSize_eq]; norm_num) 100000 ((10 : ℚ) / 1)
    (by rw [stepSize_eq]; push_cast; norm_num)]
  rw [stepSize_eq]
  push_cast
  norm_num

/-- Claim C5: for every input (with a well-formed stopping curve) `eloss`
terminates with a result, and for positive thickness the loop runs exactly
100000 iterations — the thickness is divided into `1/step_size` equal steps
— unless the energy is exhausted first (hypothesis: all iterates stay
positive). -/
theorem eloss_terminates_step_count (xs ys : List ℚ) (m e t : ℚ) (f : ℚ → ℚ)
    (hf : ∀ v, 0 < v → sAt xs ys v = some (f v)) :
    (∃ r, eloss xs ys m e t = some r) ∧
    (0 < t →
      (∀ k, k < 100000 → 0 < eulerIter f (t * stepSize) m k (e / m)) →
      elossSteps xs ys m e t = some 100000) := by
  constructor
  · rw [← Option.isSome_iff_exists]
    by_cases ht : 0 < t
    · rw [eloss, eloss_pos_bridge hf ht]
      rfl
    · rw [eloss, show (100001 : Nat) = 100000 + 1 from rfl,
        elossGo_stop (fun hcon => ht hcon.1)]
      rfl
  · intro ht hpos
    rw [elossSteps, eloss_pos_bridge hf ht,
      activeCount_full 100000 (e / m) (fun i hi => hpos i hi)]
    rfl

/-- Claim C5 witness: constant stopping power 2, mass 1, energy 10,
thickness 1: the call returns a result and runs exactly 100000 steps. -/
theorem eloss_terminates_step_count_witness :
    (eloss [1] [2] 1 10 1).isSome = true ∧
    elossSteps [1] [2] 1 10 1 = some 100000 := by
  have h := eloss_terminates_step_count [1] [2] 1 10 1 (fun _ => 2)
    (fun v _ => sAt_single 1 2 v)
  refine ⟨Option.isSome_iff_exists.mpr h.1, h.2 (by norm_num) ?_⟩
  intro k hk
  have hk' : (k : ℚ) ≤ 99999 := by exact_mod_cast Nat.le_of_lt_succ hk
  have harg : 0 < (10 : ℚ) / 1 - (k : ℚ) * ((2 : ℚ) * (1 * stepSize) / 1) := by
    rw [stepSize_eq]
    nlinarith [hk']
  rw [eulerIter_const (by rw [stepSize_eq]; norm_num) k ((10 : ℚ) / 1) harg]
  exact harg

/-- Claim C6 (amended): for a stopping curve that is defined, non-negative
and non-increasing at all positive specific energies, and thicknesses
`0 < t1 ≤ t2` such that the thicker run does not range the particle out
(its final specific energy stays positive), the energy loss is monotone:
`eloss` at `t1` is at most `eloss` at `t2`. -/
theorem eloss_mono_of_antitone (xs ys : List ℚ) (m e t1 t2 : ℚ) (f : ℚ → ℚ)
    (hf : ∀ v, 0 < v → sAt xs ys v = some (f v))
    (hanti : ∀ u v, 0 < u → u ≤ v → f v ≤ f u)
    (hfpos : ∀ v, 0 < v → 0 ≤ f v)
    (hm : 0 < m) (ht1 : 0 < t1) (h12 : t1 ≤ t2)
    (hno : 0 < eulerIter f (t2 * stepSize) m 100000 (e / m)) :
    ∃ l1 l2, eloss xs ys m e t1 = some l1 ∧ eloss xs ys m e t2 = some l2 ∧
      l1 ≤ l2 := by
  have ht2 : 0 < t2 := lt_of_lt_of_le ht1 h12
  have hss : (0 : ℚ) < stepSize := by rw [stepSize_eq]; norm_num
  have hd1 : 0 < t1 * stepSize := by positivity
  have hd2 : (0 : ℚ) ≤ t2 * stepSize := by positivity
  have hd12 : t1 * stepSize ≤ t2 * stepSize := by nlinarith
  have hkey : eulerIter f (t2 * stepSize) m 100000 (e / m)
      ≤ eulerIter f (t1 * stepSize) m 100000 (e / m) := by
    apply eulerIter_mono hm hd1 hd12 hanti hfpos 100000 (e / m) (e / m) le_rfl
    intro i hi
    exact eulerIter_pos_of_final hfpos hd2 hm hno i hi
  refine ⟨e - eulerIter f (t1 * stepSize) m 100000 (e / m) * m,
          e - eulerIter f (t2 * stepSize) m 100000 (e / m) * m, ?_, ?_, ?_⟩
  · rw [eloss, eloss_pos_bridge hf ht1]
    rfl
  · rw [eloss, eloss_pos_bridge hf ht2]
    rfl
  · have := mul_le_mul_of_nonneg_right hkey hm.le
    linarith

/-- Claim C6 witness: constant stopping power 2 over a one-point table,
mass 1, energy 10, thicknesses 1 ≤ 2; neither run stops the particle and
the losses are ordered. -/
theorem eloss_mono_of_antitone_witness :
    (eloss [1] [2] 1 10 1).isSome = true ∧ (eloss [1] [2] 1 10 2).isSome = true ∧
    (eloss [1] [2] 1 10 1).getD 0 ≤ (eloss [1] [2] 1 10 2).getD 0 := by
  have h : ∃ l1 l2, eloss [1] [2] 1 10 1 = some l1 ∧
      eloss [1] [2] 1 10 2 = some l2 ∧ l1 ≤ l2 := by
    apply eloss_mono_of_antitone [1] [2] 1 10 1 2 (fun _ => 2)
    · intro v _
      exact sAt_single 1 2 v
    · intro u v _ _
      exact le_rfl
    · intro v _
      norm_num
    · norm_num
    · norm_num
    · norm_num
    · rw [eulerIter_const (by rw [stepSize_eq]; norm_num) 100000 ((10 : ℚ) / 1)
        (by rw [stepSize_eq]; push_cast; norm_num)]
      rw [stepSize_eq]
      push_cast
      norm_num
  obtain ⟨l1, l2, h1, h2, hle⟩ := h
  rw [h1, h2]
  exact ⟨rfl, rfl, hle⟩

/-- Claim C6 counterexample: with the flat stopping curve constantly `1`
(non-negative at every queried point: the runs only query `u = 1` and
`u = 1/10`), mass 1 and energy 1, thickness `90000` loses `9/5` but the
larger thickness `110000` loses only `11/10`: `eloss` is not monotone in
the thickness, because a larger fixed step overshoots less energy past
zero at range-out. -/
theorem eloss_not_monotone_in_thickness :
    sAt [0, 1] [1, 1] 1 = some 1 ∧
    sAt [0, 1] [1, 1] (1/10) = some 1 ∧
    (90000 : ℚ) ≤ 110000 ∧
    eloss [0, 1] [1, 1] 1 1 90000 = some (9/5) ∧
    eloss [0, 1] [1, 1] 1 1 110000 = some (11/10) ∧
    ¬ ((9/5 : ℚ) ≤ 11/10) := by
  refine ⟨sAt_flat01 1, sAt_flat01 (1/10), by norm_num, ?_, ?_, by norm_num⟩
  · have hd : (90000 : ℚ) * stepSize = 9/10 := by rw [stepSize_eq]; norm_num
    have hiter : eulerIter (fun _ => (1 : ℚ)) (9/10) 1 100000 1 = -4/5 := by
      rw [show (100000 : Nat) = 99999 + 1 from rfl, eulerIter_step (by norm_num)]
      norm_num
      rw [show (99999 : Nat) = 99998 + 1 from rfl, eulerIter_step (by norm_num)]
      norm_num
      rw [eulerIter_frozen (by norm_num)]
    rw [eloss, eloss_pos_bridge (f := fun _ => (1 : ℚ))
      (fun v _ => sAt_flat01 v) (by norm_num)]
    rw [hd, show (1 : ℚ) / 1 = 1 from by norm_num, hiter]
    norm_num
  · have hd : (110000 : ℚ) * stepSize = 11/10 := by rw [stepSize_eq]; norm_num
    have hiter : eulerIter (fun _ => (1 : ℚ)) (11/10) 1 100000 1 = -1/10 := by
      rw [show (100000 : Nat) = 99999 + 1 from rfl, eulerIter_step (by norm_num)]
      norm_num
      rw [eulerIter_frozen (by norm_num)]
    rw [eloss, eloss_pos_bridge (f := fun _ => (1 : ℚ))
      (fun v _ => sAt_flat01 v) (by norm_num)]
    rw [hd, show (1 : ℚ) / 1 = 1 from by norm_num, hiter]
    norm_num
